import Mathlib

/-!
Verification of the koelectra-rasa DIET training module.

This file gives a shallow embedding of the two source files
`DIET/model/models.py` (the `EmbeddingTransformer` network) and
`DIET/DIET_lightning_model.py` (the `DualIntentEntityTransformer`
Lightning module), and proves the behavioural claims about them.

Modelling conventions:
* torch tensors are nested `List`s of exact rationals (`ℚ`); real float
  arithmetic is idealised as exact arithmetic, and operations that raise
  in torch (out-of-range embedding lookups, shape mismatches, stacking an
  empty list) return `none`.
* the transformer encoder stack and the pointwise `-log softmax` kernel of
  `nn.CrossEntropyLoss` are transcendental, so they are parameters of the
  embedded model (`encoder`, `nll`); the reduction structure of the loss
  (the unweighted mean over every batch element and token position, with
  no `ignore_index` masking) is embedded concretely.
* Python dictionaries returned by the module's methods are embedded as
  records whose field names are the dictionary keys.
-/

/-- Monadic map over `Option` specialised to lists, written as a plain
structural recursion so that proofs can unfold it; it embeds a Python
loop that may raise at each element. -/
def optionMapM (f : α → Option β) : List α → Option (List β)
  | [] => some []
  | a :: as =>
    match f a, optionMapM f as with
    | some b, some bs => some (b :: bs)
    | _, _ => none

theorem optionMapM_nil (f : α → Option β) : optionMapM f [] = some [] := rfl

theorem optionMapM_length {f : α → Option β} :
    ∀ {l : List α} {ys : List β}, optionMapM f l = some ys → ys.length = l.length := by
  intro l
  induction l with
  | nil => intro ys h; simp [optionMapM] at h; simp [← h]
  | cons a as ih =>
    intro ys h
    simp only [optionMapM] at h
    cases hfa : f a with
    | none => rw [hfa] at h; simp at h
    | some b =>
      rw [hfa] at h
      cases hrec : optionMapM f as with
      | none => rw [hrec] at h; simp at h
      | some bs =>
        rw [hrec] at h
        simp only [Option.some.injEq] at h
        subst h
        simp [ih hrec]

theorem optionMapM_mem {f : α → Option β} :
    ∀ {l : List α} {ys : List β}, optionMapM f l = some ys →
      ∀ y ∈ ys, ∃ a ∈ l, f a = some y := by
  intro l
  induction l with
  | nil => intro ys h; simp [optionMapM] at h; subst h; simp
  | cons a as ih =>
    intro ys h
    simp only [optionMapM] at h
    cases hfa : f a with
    | none => rw [hfa] at h; simp at h
    | some b =>
      rw [hfa] at h
      cases hrec : optionMapM f as with
      | none => rw [hrec] at h; simp at h
      | some bs =>
        rw [hrec] at h
        simp only [Option.some.injEq] at h
        subst h
        intro y hy
        rcases List.mem_cons.1 hy with hy | hy
        · exact ⟨a, List.mem_cons_self a as, by rw [hfa, hy]⟩
        · rcases ih hrec y hy with ⟨a2, ha2, hfa2⟩
          exact ⟨a2, List.mem_cons_of_mem a ha2, hfa2⟩

theorem optionMapM_getD {f : α → Option β} (d : α) (d2 : β) :
    ∀ {l : List α} {ys : List β}, optionMapM f l = some ys →
      ∀ i, i < l.length → f (l.getD i d) = some (ys.getD i d2) := by
  intro l
  induction l with
  | nil => intro ys _ i hi; simp at hi
  | cons a as ih =>
    intro ys h i hi
    simp only [optionMapM] at h
    cases hfa : f a with
    | none => rw [hfa] at h; simp at h
    | some b =>
      rw [hfa] at h
      cases hrec : optionMapM f as with
      | none => rw [hrec] at h; simp at h
      | some bs =>
        rw [hrec] at h
        simp only [Option.some.injEq] at h
        subst h
        cases i with
        | zero => simpa [List.getD] using hfa
        | succ j =>
          simp only [List.length_cons, Nat.succ_lt_succ_iff] at hi
          simpa [List.getD] using ih hrec j hi

/-- If `f` succeeds, with postcondition `P`, on each element, then
`optionMapM f` succeeds and every output satisfies `P`. -/
theorem optionMapM_shape {f : α → Option β} (P : β → Prop) :
    ∀ {l : List α}, (∀ a ∈ l, ∃ b, f a = some b ∧ P b) →
      ∃ ys, optionMapM f l = some ys ∧ ys.length = l.length ∧ ∀ y ∈ ys, P y := by
  intro l
  induction l with
  | nil => intro _; exact ⟨[], rfl, rfl, by simp⟩
  | cons a as ih =>
    intro h
    rcases h a (List.mem_cons_self a as) with ⟨b, hb, hPb⟩
    rcases ih (fun x hx => h x (List.mem_cons_of_mem a hx)) with ⟨bs, hbs, hlen, hP⟩
    refine ⟨b :: bs, ?_, by simp [hlen], ?_⟩
    · simp only [optionMapM, hb, hbs]
    · intro y hy
      rcases List.mem_cons.1 hy with hy | hy
      · rw [hy]; exact hPb
      · exact hP y hy

/-- Shape predicate for a rank-2 tensor: `a` rows, each of length `b`. -/
def shape2 (t : List (List α)) (a b : ℕ) : Prop :=
  t.length = a ∧ ∀ r ∈ t, r.length = b

/-- Shape predicate for a rank-3 tensor: `a × b × c`. -/
def shape3 (t : List (List (List α))) (a b c : ℕ) : Prop :=
  t.length = a ∧ ∀ r ∈ t, r.length = b ∧ ∀ v ∈ r, v.length = c

instance (t : List (List α)) (a b : ℕ) : Decidable (shape2 t a b) := by
  unfold shape2; infer_instance

instance (t : List (List (List α))) (a b c : ℕ) : Decidable (shape3 t a b c) := by
  unfold shape3; infer_instance

/-- Embeds `torch.Tensor.transpose(1, 0)` on the first two dimensions of a
rectangular nested-list tensor.  `filler` is never read on rectangular
input; it only makes the lookup total. -/
def transpose10 (filler : α) (t : List (List α)) : List (List α) :=
  match t with
  | [] => []
  | r :: rest =>
      (List.range r.length).map fun j => (r :: rest).map fun row => row.getD j filler

theorem transpose10_row_length {filler : α} {t : List (List α)} :
    ∀ r ∈ transpose10 filler t, r.length = t.length := by
  intro r hr
  cases t with
  | nil => simp [transpose10] at hr
  | cons hd tl =>
    simp only [transpose10, List.mem_map] at hr
    rcases hr with ⟨j, _, hj⟩
    rw [← hj]
    simp

theorem transpose10_length {filler : α} {t : List (List α)} {a b : ℕ}
    (h : shape2 t a b) (ha : 0 < a) : (transpose10 filler t).length = b := by
  rcases h with ⟨hlen, hrows⟩
  cases t with
  | nil => simp at hlen; omega
  | cons hd tl =>
    simp only [transpose10, List.length_map, List.length_range]
    exact hrows hd (List.mem_cons_self hd tl)

theorem transpose10_shape2 (filler : α) {t : List (List α)} {a b : ℕ}
    (h : shape2 t a b) (ha : 0 < a) : shape2 (transpose10 filler t) b a := by
  refine ⟨transpose10_length h ha, fun r hr => ?_⟩
  rw [transpose10_row_length r hr, h.1]

theorem getD_map_of_lt (f : α → β) (l : List α) (d : β) (d2 : α) {i : ℕ}
    (hi : i < l.length) : (l.map f).getD i d = f (l.getD i d2) := by
  rw [List.getD_eq_getElem?_getD, List.getElem?_map, List.getElem?_eq_getElem hi,
    List.getD_eq_getElem?_getD, List.getElem?_eq_getElem hi]
  rfl

theorem getD_range_of_lt {n i : ℕ} (hi : i < n) (d : ℕ) : (List.range n).getD i d = i := by
  rw [List.getD_eq_getElem?_getD, List.getElem?_range hi]
  rfl

theorem transpose10_getD (filler : α) {t : List (List α)} {a b : ℕ}
    (h : shape2 t a b) (i j : ℕ) (hi : i < a) (hj : j < b) :
    ((transpose10 filler t).getD j []).getD i filler = (t.getD i []).getD j filler := by
  rcases h with ⟨hlen, hrows⟩
  cases t with
  | nil => rw [List.length_nil] at hlen; omega
  | cons hd tl =>
    have hhd : hd.length = b := hrows hd (List.mem_cons_self hd tl)
    have hi2 : i < (hd :: tl).length := by rw [hlen]; exact hi
    have houter : (transpose10 filler (hd :: tl)).getD j []
        = (hd :: tl).map (fun row => row.getD j filler) := by
      simp only [transpose10, hhd]
      rw [getD_map_of_lt _ _ [] 0 (by simpa using hj), getD_range_of_lt hj]
    rw [houter, getD_map_of_lt _ _ filler [] hi2]

/-- A list equals the tabulation of its entries. -/
theorem map_getD_range (d : α) :
    ∀ (v : List α), (List.range v.length).map (fun j => v.getD j d) = v := by
  intro v
  induction v with
  | nil => simp
  | cons x xs ih =>
    simp only [List.length_cons, List.range_succ_eq_map, List.map_cons, List.getD_cons_zero,
      List.map_map]
    refine congrArg (x :: ·) ?_
    calc (List.range xs.length).map ((fun j => (x :: xs).getD j d) ∘ Nat.succ)
        = (List.range xs.length).map (fun j => xs.getD j d) := by
          refine List.map_congr_left fun j _ => ?_
          simp [List.getD_cons_succ]
      _ = xs := ih

/-- Column `l` of the transpose of a rectangular matrix is row `l` of the
matrix. -/
theorem transpose10_col (filler : α) {m : List (List α)} {c : ℕ}
    (hrows : ∀ r ∈ m, r.length = c) {l : ℕ} (hl : l < m.length) :
    (transpose10 filler m).map (fun r => r.getD l filler) = m.getD l [] := by
  cases m with
  | nil => simp at hl
  | cons hd tl =>
    have hhd : hd.length = c := hrows hd (List.mem_cons_self hd tl)
    have hmem : (hd :: tl).getD l [] ∈ hd :: tl := by
      rw [List.getD_eq_getElem?_getD, List.getElem?_eq_getElem hl]
      exact List.getElem_mem hl
    have hrowl : ((hd :: tl).getD l []).length = c := hrows _ hmem
    simp only [transpose10, hhd, List.map_map]
    have hcong : ∀ j ∈ List.range c,
        ((fun r => r.getD l filler) ∘ fun j => (hd :: tl).map fun row => row.getD j filler) j
          = ((hd :: tl).getD l []).getD j filler := by
      intro j _
      show ((hd :: tl).map fun row => row.getD j filler).getD l filler
          = ((hd :: tl).getD l []).getD j filler
      rw [getD_map_of_lt _ _ filler [] hl]
    rw [List.map_congr_left hcong, ← hrowl, map_getD_range]

/-- Pointwise zip of equal-length lists as a tabulation. -/
theorem zipWith_eq_map_range (f : α → β → γ) (da : α) (db : β) :
    ∀ (as : List α) (bs : List β), as.length = bs.length →
      List.zipWith f as bs
        = (List.range bs.length).map (fun i => f (as.getD i da) (bs.getD i db)) := by
  intro as
  induction as with
  | nil => intro bs h; simp at h; simp [← h]
  | cons a as ih =>
    intro bs h
    cases bs with
    | nil => simp at h
    | cons b bs =>
      simp only [List.length_cons, Nat.succ_inj] at h
      simp only [List.zipWith_cons_cons, List.length_cons, List.range_succ_eq_map,
        List.map_cons, List.getD_cons_zero, List.map_map]
      refine congrArg (f a b :: ·) ?_
      rw [ih bs h]
      refine List.map_congr_left fun j _ => ?_
      simp [Function.comp, List.getD_cons_succ]

/-- Embeds `torch.nn.Linear(in_features, out_features)`: `weight` has one
row per output feature, `bias` one entry per output feature; application
raises (`none`) when the input vector does not have `in_features`
entries, as torch does on a trailing-dimension mismatch. -/
structure LinearLayer where
  in_features : ℕ
  weight : List (List ℚ)
  bias : List ℚ

def listDot (a b : List ℚ) : ℚ := (List.zipWith (fun x y => x * y) a b).sum

def LinearLayer.apply (lin : LinearLayer) (v : List ℚ) : Option (List ℚ) :=
  if v.length = lin.in_features then
    some (List.zipWith (fun w c => listDot w v + c) lin.weight lin.bias)
  else none

/-- Elementwise addition of two vectors; `none` embeds torch's
shape-mismatch error. -/
def addVec (a b : List ℚ) : Option (List ℚ) :=
  if a.length = b.length then some (List.zipWith (fun x y => x + y) a b) else none

/-- Row-wise addition of two matrices, with torch's in-place broadcast
rule for the leading dimension: `b` may instead have a single row that is
added to every row of `a`. -/
def addMat (a b : List (List ℚ)) : Option (List (List ℚ)) :=
  if a.length = b.length then optionMapM (fun p => addVec p.1 p.2) (a.zip b)
  else if b.length = 1 then optionMapM (fun r => addVec r (b.getD 0 [])) a
  else none

/-- Embeds the in-place `embedding += position_embedding(...)` add between
two rank-3 tensors whose leading (batch) dimensions agree. -/
def inplaceAdd (a b : List (List (List ℚ))) : Option (List (List (List ℚ))) :=
  if a.length = b.length then optionMapM (fun p => addMat p.1 p.2) (a.zip b) else none

/-- Embeds `DIET.model.models.EmbeddingTransformer`.  The self-attention
stack (`nn.TransformerEncoder` with its final `LayerNorm`) is
transcendental, so it is carried as an opaque shape-preserving function
field; the embedding tables, positional-index recomputation and the two
linear heads are embedded concretely. -/
structure EmbeddingTransformer where
  vocab_size : ℕ
  seq_len : ℕ
  intent_class_num : ℕ
  entity_class_num : ℕ
  d_model : ℕ := 512
  /-- weight of `nn.Embedding(vocab_size, d_model)` -/
  embedding : List (List ℚ)
  /-- weight of `nn.Embedding(seq_len, d_model)` -/
  position_embedding : List (List ℚ)
  /-- the `nn.TransformerEncoder` stack, sequence-major in and out -/
  encoder : List (List (List ℚ)) → List (List (List ℚ))
  intent_feature : LinearLayer
  entity_feature : LinearLayer

/-- The body of `EmbeddingTransformer.forward` up to and including the
encoder call: token-embedding lookup, positional embedding of indices
`0..seq_len-1` repeated over the batch, the in-place add, the
`(N,S,E) -> (S,N,E)` transpose and the encoder stack. -/
def EmbeddingTransformer.encoded (m : EmbeddingTransformer) (x : List (List ℕ)) :
    Option (List (List (List ℚ))) :=
  match optionMapM (fun row => optionMapM (fun t => m.embedding[t]?) row) x with
  | none => none
  | some emb =>
    match optionMapM (fun i => m.position_embedding[i]?) (List.range m.seq_len) with
    | none => none
    | some posRow =>
      match inplaceAdd emb (x.map fun _ => posRow) with
      | none => none
      | some emb2 => some (m.encoder (transpose10 ([] : List ℚ) emb2))

/-- Embeds `EmbeddingTransformer.forward`: the encoder representation,
the intent head on the first sequence position only, the entity head on
every position, and the `(S,N,E) -> (N,S,E)` transpose of the entity
logits. -/
def EmbeddingTransformer.forward (m : EmbeddingTransformer) (x : List (List ℕ)) :
    Option (List (List ℚ) × List (List (List ℚ))) :=
  match m.encoded x with
  | none => none
  | some feature =>
    match feature[0]? with
    | none => none
    | some row0 =>
      match optionMapM m.intent_feature.apply row0 with
      | none => none
      | some intentOut =>
        match optionMapM (fun r => optionMapM m.entity_feature.apply r) feature with
        | none => none
        | some entityOut => some (intentOut, transpose10 ([] : List ℚ) entityOut)

/-- Embeds `tensor.squeeze(1)` for the dataset's `[N, 1]` intent-label
tensors (the dataset contract fixes the inner dimension to one entry, and
that is the shape `DualIntentEntityTransformer` squeezes). -/
def squeezeDim1 (t : List (List ℤ)) : List ℤ := t.map (fun r => r.getD 0 0)

/-- Embeds `tensor.long()`: the dataset's label values are already
integral, so the dtype cast is the identity on their values. -/
def tensorLong (t : List (List ℤ)) : List (List ℤ) := t

/-- Embeds `tensor.transpose(1, 2)` on a rank-3 tensor: each batch
element's trailing matrix is transposed. -/
def transpose12 (t : List (List (List ℚ))) : List (List (List ℚ)) :=
  t.map (transpose10 (0 : ℚ))

/-- Embeds `nn.CrossEntropyLoss()` applied to `[N, C]` logits and an
`[N]` target, parameterised by the pointwise `-log softmax` kernel
`nll`: the unweighted mean of the per-example terms (default
`reduction="mean"`, no `ignore_index`); `none` embeds torch's error on a
batch-dimension mismatch. -/
def crossEntropy2 (nll : List ℚ → ℤ → ℚ) (input : List (List ℚ)) (target : List ℤ) :
    Option ℚ :=
  if input.length = target.length then
    some ((List.zipWith nll input target).sum / (List.zipWith nll input target).length)
  else none

/-- Embeds `nn.CrossEntropyLoss()` applied to `[N, C, L]` logits and an
`[N, L]` target: the unweighted mean, over every batch element and every
position (no `ignore_index` masking), of the kernel applied to the class
column at that position; `none` embeds torch's shape-mismatch error. -/
def crossEntropy3 (nll : List ℚ → ℤ → ℚ) (input : List (List (List ℚ)))
    (target : List (List ℤ)) : Option ℚ :=
  if input.length = target.length
      ∧ ∀ p ∈ input.zip target, ∀ r ∈ p.1, r.length = p.2.length then
    let terms :=
      ((input.zip target).map fun p =>
        (List.range p.2.length).map fun l =>
          nll (p.1.map fun r => r.getD l 0) (p.2.getD l 0)).flatten
    some (terms.sum / terms.length)
  else none

/-- A batch yielded by the dataset loader:
`(token ids [N, L], intent label [N, 1], entity labels [N, L])`. -/
structure TorchBatch where
  tokens : List (List ℕ)
  intent_idx : List (List ℤ)
  entity_idx : List (List ℤ)

/-- Embeds `DIET.DIET_lightning_model.DualIntentEntityTransformer`.  The
dataset object is external, so only the dimensions it induces appear via
`model`; `nll` is the shared `self.loss_fn = nn.CrossEntropyLoss()`
kernel, `get_accuracy2`/`get_accuracy3` the external
`torchnlp.metrics.get_accuracy` at the two call shapes, and `paramsId`
identifies the shared `self.parameters()` set. -/
structure DualIntentEntityTransformer where
  model : EmbeddingTransformer
  nll : List ℚ → ℤ → ℚ
  get_accuracy2 : List (List ℤ) → List (List ℚ) → ℚ
  get_accuracy3 : List (List ℤ) → List (List (List ℚ)) → ℚ
  optimizer : String
  lr : ℚ
  paramsId : ℕ

/-- The dictionary returned by `training_step`: `loss` plus the active
role's named loss; a missing key is `none`. -/
structure TrainStepOutput where
  loss : ℚ
  intent_loss : Option ℚ
  entity_loss : Option ℚ
deriving DecidableEq

/-- Embeds `DualIntentEntityTransformer.training_step`.  The outer
`Option` is an exception escaping the step; the inner `Option` is the
Python return value, `none` being the implicit `None` returned when
`optimizer_idx` matches neither branch. -/
def DualIntentEntityTransformer.training_step (self : DualIntentEntityTransformer)
    (batch : TorchBatch) (batch_idx optimizer_idx : ℕ) :
    Option (Option TrainStepOutput) :=
  match self.model.forward batch.tokens with
  | none => none
  | some (intent_pred, entity_pred) =>
    if optimizer_idx = 0 then
      match crossEntropy2 self.nll intent_pred (squeezeDim1 batch.intent_idx) with
      | none => none
      | some intent_loss => some (some ⟨intent_loss, some intent_loss, none⟩)
    else if optimizer_idx = 1 then
      match crossEntropy3 self.nll (transpose12 entity_pred) (tensorLong batch.entity_idx) with
      | none => none
      | some entity_loss => some (some ⟨entity_loss, none, some entity_loss⟩)
    else some none

/-- The dictionary returned by `validation_step`. -/
structure ValidationStepOutput where
  val_intent_acc : ℚ
  val_entity_acc : ℚ
  val_intent_loss : ℚ
  val_entity_loss : ℚ
  val_loss : ℚ
deriving DecidableEq

/-- Embeds `DualIntentEntityTransformer.validation_step`. -/
def DualIntentEntityTransformer.validation_step (self : DualIntentEntityTransformer)
    (batch : TorchBatch) (batch_idx : ℕ) : Option ValidationStepOutput :=
  match self.model.forward batch.tokens with
  | none => none
  | some (intent_pred, entity_pred) =>
    let intent_acc := self.get_accuracy2 batch.intent_idx intent_pred
    let entity_acc := self.get_accuracy3 batch.entity_idx entity_pred
    match crossEntropy2 self.nll intent_pred (squeezeDim1 batch.intent_idx) with
    | none => none
    | some intent_loss =>
      match crossEntropy3 self.nll (transpose12 entity_pred) (tensorLong batch.entity_idx) with
      | none => none
      | some entity_loss =>
        some ⟨intent_acc, entity_acc, intent_loss, entity_loss, intent_loss + entity_loss⟩

/-- Embeds `torch.stack([...]).mean()` over a list of scalar tensors:
`torch.stack` raises on an empty list, and `.mean()` of the stacked
vector is the unweighted arithmetic mean. -/
def stackMean (xs : List ℚ) : Option ℚ :=
  if xs = [] then none else some (xs.sum / xs.length)

/-- The `tensorboard_logs` dictionary built by `validation_epoch_end`. -/
structure ValidationLog where
  val_loss : ℚ
  intent_acc : ℚ
  entity_acc : ℚ
deriving DecidableEq

/-- The dictionary returned by `validation_epoch_end`. -/
structure ValidationEpochEndOutput where
  avg_val_loss : ℚ
  log : ValidationLog
deriving DecidableEq

/-- Embeds `DualIntentEntityTransformer.validation_epoch_end`. -/
def validation_epoch_end (outputs : List ValidationStepOutput) :
    Option ValidationEpochEndOutput :=
  match stackMean (outputs.map (fun x => x.val_loss)) with
  | none => none
  | some avg_loss =>
    match stackMean (outputs.map (fun x => x.val_intent_acc)) with
    | none => none
    | some avg_intent_acc =>
      match stackMean (outputs.map (fun x => x.val_entity_acc)) with
      | none => none
      | some avg_entity_acc =>
        some ⟨avg_loss, ⟨avg_loss, avg_intent_acc, avg_entity_acc⟩⟩

/-- The `tensorboard_logs` dictionary built by `valdition_epoch_end`
(the source method's name is spelled this way). -/
structure ValditionLog where
  val_intent_loss : ℚ
  val_entity_loss : ℚ
deriving DecidableEq

/-- The dictionary returned by `valdition_epoch_end`. -/
structure ValditionEpochEndOutput where
  val_intent_loss : ℚ
  val_entity_loss : ℚ
  log : ValditionLog
deriving DecidableEq

/-- Embeds `DualIntentEntityTransformer.valdition_epoch_end`, the second,
separately named end-of-epoch aggregation. -/
def valdition_epoch_end (outputs : List ValidationStepOutput) :
    Option ValditionEpochEndOutput :=
  match stackMean (outputs.map (fun x => x.val_intent_loss)) with
  | none => none
  | some avg_intent_loss =>
    match stackMean (outputs.map (fun x => x.val_entity_loss)) with
    | none => none
    | some avg_entity_loss =>
      some ⟨avg_intent_loss, avg_entity_loss, ⟨avg_intent_loss, avg_entity_loss⟩⟩

/-- Embeds Python `int(...)` on a real value: truncation toward zero. -/
def pyInt (q : ℚ) : ℤ := if q < 0 then -⌊-q⌋ else ⌊q⌋

/-- Embeds `torch.utils.data.random_split(dataset, lengths)`: its only
validation is that the lengths sum to the dataset length, after which it
partitions a random permutation into subsets of exactly those lengths
(the subsets are abstracted to their sizes, the only datum the claims
use; zero lengths pass the check and yield empty subsets). -/
def random_split (datasetLen : ℕ) (lengths : List ℤ) : Option (List ℤ) :=
  if lengths.sum = (datasetLen : ℤ) then some lengths else none

/-- Embeds `DualIntentEntityTransformer.prepare_data`, applied to a
dataset of length `datasetLen` with the configured split fraction:
`train_length = int(len(dataset) * ratio)`, then `random_split` with
`[train_length, len(dataset) - train_length]`.  Returns the sizes of
`self.train_dataset` and `self.val_dataset`. -/
def prepare_data (datasetLen : ℕ) (splitFraction : ℚ) : Option (ℤ × ℤ) :=
  match random_split datasetLen
      [pyInt ((datasetLen : ℚ) * splitFraction),
       (datasetLen : ℤ) - pyInt ((datasetLen : ℚ) * splitFraction)] with
  | none => none
  | some [a, b] => some (a, b)
  | some _ => none

/-- Embeds the batch count of a `torch.utils.data.DataLoader` over a
subset of the given size (default `drop_last=False`, so a trailing
partial batch counts); constructing a loader with a non-positive
`batch_size` raises. -/
def dataLoaderNumBatches (subsetLen batchSize : ℕ) : Option ℕ :=
  if batchSize = 0 then none else some ((subsetLen + batchSize - 1) / batchSize)

/-- Embeds a `torch.optim` optimizer object as its observable
configuration: the constructor family that produced it, the parameter
set it updates (by identity), and its learning rate. -/
structure TorchOptimizer where
  family : String
  paramsRef : ℕ
  lr : ℚ
deriving DecidableEq

/-- Embeds `torch.optim.lr_scheduler.StepLR(optimizer, step_size=...)`. -/
structure TorchStepLR where
  optimizer : TorchOptimizer
  step_size : ℕ
deriving DecidableEq

/-- Embeds `eval(f"{name}(self.parameters(), lr={lr})")`: dynamic
resolution of the configured optimizer-family name in the Python
environment `env` (the names `eval` can see), then construction over the
shared parameter set; an unresolvable name raises a `NameError`. -/
def evalOptimizerExpr (env : List String) (name : String) (paramsRef : ℕ) (lr : ℚ) :
    Option TorchOptimizer :=
  if name ∈ env then some ⟨name, paramsRef, lr⟩ else none

/-- Embeds `DualIntentEntityTransformer.configure_optimizers`. -/
def DualIntentEntityTransformer.configure_optimizers
    (self : DualIntentEntityTransformer) (env : List String) :
    Option (List TorchOptimizer × List TorchStepLR) :=
  match evalOptimizerExpr env self.optimizer self.paramsId self.lr with
  | none => none
  | some intent_optimizer =>
    match evalOptimizerExpr env self.optimizer self.paramsId self.lr with
    | none => none
    | some entity_optimizer =>
      some ([intent_optimizer, entity_optimizer],
            [⟨intent_optimizer, 1⟩, ⟨entity_optimizer, 1⟩])

/-- Modelled from the spec: the external training framework
(`pytorch_lightning.Trainer`, an excluded collaborator) configures
optimizers during setup, before the first training step runs, and a
failure there aborts the run as a configuration error with no training
step executed; afterwards it feeds the training steps.  `steps` lists
the `(batch, batch_idx, optimizer_idx)` calls the run would make. -/
def trainer_fit (self : DualIntentEntityTransformer) (env : List String)
    (steps : List (TorchBatch × ℕ × ℕ)) :
    Except String (List (Option TrainStepOutput)) :=
  match self.configure_optimizers env with
  | none => Except.error "ConfigurationError"
  | some _ =>
    match optionMapM (fun p => self.training_step p.1 p.2.1 p.2.2) steps with
    | none => Except.error "RuntimeError"
    | some outs => Except.ok outs

theorem prepare_data_eq (n : ℕ) (r : ℚ) (h0 : 0 ≤ (n : ℚ) * r) :
    prepare_data n r = some (⌊(n : ℚ) * r⌋, (n : ℤ) - ⌊(n : ℚ) * r⌋) := by
  have hpy : pyInt ((n : ℚ) * r) = ⌊(n : ℚ) * r⌋ := if_neg (not_lt.2 h0)
  have hsum : ([⌊(n : ℚ) * r⌋, (n : ℤ) - ⌊(n : ℚ) * r⌋]).sum = (n : ℤ) := by
    simp only [List.sum_cons, List.sum_nil]
    omega
  unfold prepare_data random_split
  rw [hpy, if_pos hsum]

/-- Claim C3: for every dataset length `n` and split fraction in `(0,1)`,
the train/validation partition built by `prepare_data` has
`train_size = floor(n * fraction)` and `train_size + val_size = n`. -/
theorem spec_C3 (n : ℕ) (r : ℚ) (h0 : 0 < r) (h1 : r < 1) :
    prepare_data n r = some (⌊(n : ℚ) * r⌋, (n : ℤ) - ⌊(n : ℚ) * r⌋)
      ∧ ⌊(n : ℚ) * r⌋ + ((n : ℤ) - ⌊(n : ℚ) * r⌋) = (n : ℤ) :=
  ⟨prepare_data_eq n r (mul_nonneg (Nat.cast_nonneg n) h0.le), by ring⟩

/-- Witness for C3 at the spec's end-to-end scenario: `train_ratio=0.8`
on a 100-example dataset yields sizes 80 and 20. -/
theorem spec_C3_witness :
    (prepare_data 100 (4/5) = some (⌊(100 : ℚ) * (4/5)⌋, (100 : ℤ) - ⌊(100 : ℚ) * (4/5)⌋)
        ∧ ⌊(100 : ℚ) * (4/5)⌋ + ((100 : ℤ) - ⌊(100 : ℚ) * (4/5)⌋) = (100 : ℤ))
      ∧ ⌊(100 : ℚ) * (4/5)⌋ = 80 ∧ (100 : ℤ) - ⌊(100 : ℚ) * (4/5)⌋ = 20 :=
  ⟨spec_C3 100 (4/5) (by norm_num) (by norm_num), by norm_num, by norm_num⟩

/-- Counterexample to claim C9: an empty dataset, and a fraction whose
train split is empty on a one-element dataset, both pass data-loading
setup — `prepare_data` returns empty subsets instead of failing, and the
loaders over an empty subset are constructed fine and yield zero
batches. -/
theorem spec_C9_counterexample :
    prepare_data 0 (1/2) ≠ none ∧ prepare_data 0 (1/2) = some (0, 0)
      ∧ prepare_data 1 (1/2) ≠ none ∧ prepare_data 1 (1/2) = some (0, 1)
      ∧ dataLoaderNumBatches 0 32 = some 0 := by
  have h0 : prepare_data 0 (1/2) = some (0, 0) := by
    rw [prepare_data_eq 0 (1/2) (by norm_num)]
    norm_num
  have h1 : prepare_data 1 (1/2) = some (0, 1) := by
    rw [prepare_data_eq 1 (1/2) (by norm_num)]
    norm_num
  exact ⟨by rw [h0]; simp, h0, by rw [h1]; simp, h1, by decide⟩

/-- Claim C9 as amended: for every dataset length (also zero) and every
split fraction in `(0,1)` (also ones producing a zero-length subset),
data-loading setup succeeds — `random_split`'s only check, that the two
lengths sum to the dataset length, holds by construction — and returns
(possibly empty) nonnegative split sizes summing to the dataset length;
no failure is raised before training. -/
theorem spec_C9_amended (n : ℕ) (r : ℚ) (h0 : 0 < r) (h1 : r < 1) :
    ∃ tr vl : ℤ, prepare_data n r = some (tr, vl)
      ∧ tr + vl = (n : ℤ) ∧ 0 ≤ tr ∧ 0 ≤ vl := by
  have hnn : 0 ≤ (n : ℚ) * r := mul_nonneg (Nat.cast_nonneg n) h0.le
  refine ⟨⌊(n : ℚ) * r⌋, (n : ℤ) - ⌊(n : ℚ) * r⌋, prepare_data_eq n r hnn, by ring,
    Int.floor_nonneg.2 hnn, ?_⟩
  have hle : (n : ℚ) * r ≤ (n : ℚ) := mul_le_of_le_one_right (Nat.cast_nonneg n) h1.le
  have := Int.floor_le_floor hle
  rw [Int.floor_natCast] at this
  omega

/-- Witness for the amended C9 at the empty dataset. -/
theorem spec_C9_amended_witness :
    ∃ tr vl : ℤ, prepare_data 0 (1/2) = some (tr, vl)
      ∧ tr + vl = ((0 : ℕ) : ℤ) ∧ 0 ≤ tr ∧ 0 ≤ vl :=
  spec_C9_amended 0 (1/2) (by norm_num) (by norm_num)

/-- Claim C7: optimizer configuration builds exactly two optimizers of
the same configured family with the same configured learning rate, both
over the identical shared parameter set, each paired with its own
`StepLR` schedule of step size 1. -/
theorem spec_C7 (self : DualIntentEntityTransformer) (env : List String)
    (h : self.optimizer ∈ env) :
    ∃ o1 o2 : TorchOptimizer,
      self.configure_optimizers env = some ([o1, o2], [⟨o1, 1⟩, ⟨o2, 1⟩])
        ∧ o1.family = self.optimizer ∧ o2.family = self.optimizer
        ∧ o1.lr = self.lr ∧ o2.lr = self.lr
        ∧ o1.paramsRef = self.paramsId ∧ o2.paramsRef = self.paramsId
        ∧ o1.paramsRef = o2.paramsRef := by
  refine ⟨⟨self.optimizer, self.paramsId, self.lr⟩, ⟨self.optimizer, self.paramsId, self.lr⟩,
    ?_, rfl, rfl, rfl, rfl, rfl, rfl, rfl⟩
  unfold DualIntentEntityTransformer.configure_optimizers evalOptimizerExpr
  rw [if_pos h]

/-- Claim C8: a configured optimizer-family name that does not resolve
makes `configure_optimizers` fail, and the run aborts as a configuration
error before any training step executes. -/
theorem spec_C8 (self : DualIntentEntityTransformer) (env : List String)
    (steps : List (TorchBatch × ℕ × ℕ)) (h : self.optimizer ∉ env) :
    self.configure_optimizers env = none
      ∧ trainer_fit self env steps = Except.error "ConfigurationError" := by
  have hco : self.configure_optimizers env = none := by
    unfold DualIntentEntityTransformer.configure_optimizers evalOptimizerExpr
    rw [if_neg h]
  refine ⟨hco, ?_⟩
  unfold trainer_fit
  rw [hco]

theorem stackMean_map {outputs : List ValidationStepOutput}
    (h : outputs ≠ []) (f : ValidationStepOutput → ℚ) :
    stackMean (outputs.map f) = some ((outputs.map f).sum / outputs.length) := by
  have hne : outputs.map f ≠ [] := by
    cases outputs with
    | nil => exact absurd rfl h
    | cons o os => simp
  unfold stackMean
  rw [if_neg hne, List.length_map]

theorem valdition_epoch_end_eq (outputs : List ValidationStepOutput) (h : outputs ≠ []) :
    valdition_epoch_end outputs
      = some ⟨(outputs.map fun x => x.val_intent_loss).sum / outputs.length,
              (outputs.map fun x => x.val_entity_loss).sum / outputs.length,
              ⟨(outputs.map fun x => x.val_intent_loss).sum / outputs.length,
               (outputs.map fun x => x.val_entity_loss).sum / outputs.length⟩⟩ := by
  unfold valdition_epoch_end
  rw [stackMean_map h (fun x => x.val_intent_loss), stackMean_map h (fun x => x.val_entity_loss)]

theorem validation_epoch_end_eq (outputs : List ValidationStepOutput) (h : outputs ≠ []) :
    validation_epoch_end outputs
      = some ⟨(outputs.map fun x => x.val_loss).sum / outputs.length,
              ⟨(outputs.map fun x => x.val_loss).sum / outputs.length,
               (outputs.map fun x => x.val_intent_acc).sum / outputs.length,
               (outputs.map fun x => x.val_entity_acc).sum / outputs.length⟩⟩ := by
  unfold validation_epoch_end
  rw [stackMean_map h (fun x => x.val_loss), stackMean_map h (fun x => x.val_intent_acc),
    stackMean_map h (fun x => x.val_entity_acc)]

/-- Claim C1: on every non-empty validation epoch, the second, separately
named aggregation step (`valdition_epoch_end`) emits `val_intent_loss`
and `val_entity_loss` as two distinct logged metrics, each the unweighted
mean of the corresponding per-batch values, while the base aggregation
(`validation_epoch_end`) emits `val_loss`, `intent_acc` and
`entity_acc`. -/
theorem spec_C1 (outputs : List ValidationStepOutput) (h : outputs ≠ []) :
    valdition_epoch_end outputs
        = some ⟨(outputs.map fun x => x.val_intent_loss).sum / outputs.length,
                (outputs.map fun x => x.val_entity_loss).sum / outputs.length,
                ⟨(outputs.map fun x => x.val_intent_loss).sum / outputs.length,
                 (outputs.map fun x => x.val_entity_loss).sum / outputs.length⟩⟩
      ∧ validation_epoch_end outputs
          = some ⟨(outputs.map fun x => x.val_loss).sum / outputs.length,
                  ⟨(outputs.map fun x => x.val_loss).sum / outputs.length,
                   (outputs.map fun x => x.val_intent_acc).sum / outputs.length,
                   (outputs.map fun x => x.val_entity_acc).sum / outputs.length⟩⟩ :=
  ⟨valdition_epoch_end_eq outputs h, validation_epoch_end_eq outputs h⟩

/-- Two concrete per-batch validation outputs, used to instantiate the
epoch-aggregation claims. -/
def demoValOutputs : List ValidationStepOutput :=
  [⟨0, 0, 1, 1, 2⟩, ⟨0, 0, 2, 3, 5⟩]

/-- Witness for C1 on a two-batch epoch. -/
theorem spec_C1_witness :
    valdition_epoch_end demoValOutputs
        = some ⟨(demoValOutputs.map fun x => x.val_intent_loss).sum / demoValOutputs.length,
                (demoValOutputs.map fun x => x.val_entity_loss).sum / demoValOutputs.length,
                ⟨(demoValOutputs.map fun x => x.val_intent_loss).sum / demoValOutputs.length,
                 (demoValOutputs.map fun x => x.val_entity_loss).sum / demoValOutputs.length⟩⟩
      ∧ validation_epoch_end demoValOutputs
          = some ⟨(demoValOutputs.map fun x => x.val_loss).sum / demoValOutputs.length,
                  ⟨(demoValOutputs.map fun x => x.val_loss).sum / demoValOutputs.length,
                   (demoValOutputs.map fun x => x.val_intent_acc).sum / demoValOutputs.length,
                   (demoValOutputs.map fun x => x.val_entity_acc).sum / demoValOutputs.length⟩⟩ :=
  spec_C1 demoValOutputs (by decide)

theorem validation_step_val_loss {self : DualIntentEntityTransformer} {b : TorchBatch}
    {i : ℕ} {o : ValidationStepOutput} (h : self.validation_step b i = some o) :
    o.val_loss = o.val_intent_loss + o.val_entity_loss := by
  unfold DualIntentEntityTransformer.validation_step at h
  split at h
  · exact absurd h (by simp)
  · split at h
    · exact absurd h (by simp)
    · split at h
      · exact absurd h (by simp)
      · injection h with h
        subst h
        rfl

/-- Claim C4: every validation step reports `val_loss` as exactly the sum
of its intent and entity losses, and on a non-empty epoch the emitted
epoch-level `val_loss` is the unweighted mean over validation batches of
`val_intent_loss + val_entity_loss` (exact in rational arithmetic, hence
within floating-point tolerance). -/
theorem spec_C4 (self : DualIntentEntityTransformer) (batches : List (TorchBatch × ℕ))
    (outs : List ValidationStepOutput)
    (h : optionMapM (fun p => self.validation_step p.1 p.2) batches = some outs)
    (hne : outs ≠ []) :
    (∀ o ∈ outs, o.val_loss = o.val_intent_loss + o.val_entity_loss)
      ∧ ∃ r, validation_epoch_end outs = some r
          ∧ r.avg_val_loss
              = (outs.map fun o => o.val_intent_loss + o.val_entity_loss).sum / outs.length
          ∧ r.log.val_loss
              = (outs.map fun o => o.val_intent_loss + o.val_entity_loss).sum / outs.length := by
  have hsum : ∀ o ∈ outs, o.val_loss = o.val_intent_loss + o.val_entity_loss := by
    intro o ho
    rcases optionMapM_mem h o ho with ⟨p, _, hstep⟩
    exact validation_step_val_loss hstep
  have hmap : (outs.map fun o => o.val_loss)
      = outs.map fun o => o.val_intent_loss + o.val_entity_loss :=
    List.map_congr_left hsum
  refine ⟨hsum, _, validation_epoch_end_eq outs hne, ?_, ?_⟩ <;> simp [hmap]

/-- The concrete model used by the claim witnesses: `d_model = 1`, one
intent class, one entity class, identity encoder. -/
def tinyModel : EmbeddingTransformer where
  vocab_size := 2
  seq_len := 1
  intent_class_num := 1
  entity_class_num := 1
  d_model := 1
  embedding := [[0], [0]]
  position_embedding := [[0]]
  encoder := fun t => t
  intent_feature := ⟨1, [[0]], [0]⟩
  entity_feature := ⟨1, [[0]], [0]⟩

/-- The concrete Lightning module used by the claim witnesses: constant
loss kernel and accuracy collaborators. -/
def tinyModule : DualIntentEntityTransformer where
  model := tinyModel
  nll := fun _ _ => 1
  get_accuracy2 := fun _ _ => 0
  get_accuracy3 := fun _ _ => 0
  optimizer := "Adam"
  lr := 1/1000
  paramsId := 0

/-- A concrete one-example batch over `tinyModel`. -/
def tinyBatch : TorchBatch where
  tokens := [[0]]
  intent_idx := [[0]]
  entity_idx := [[0]]

/-- Witness for C4 on a concrete one-batch epoch. -/
theorem spec_C4_witness :
    (∀ o ∈ [(⟨0, 0, 1, 1, 2⟩ : ValidationStepOutput)],
        o.val_loss = o.val_intent_loss + o.val_entity_loss)
      ∧ ∃ r, validation_epoch_end [(⟨0, 0, 1, 1, 2⟩ : ValidationStepOutput)] = some r
          ∧ r.avg_val_loss
              = ([(⟨0, 0, 1, 1, 2⟩ : ValidationStepOutput)].map
                  fun o => o.val_intent_loss + o.val_entity_loss).sum
                / [(⟨0, 0, 1, 1, 2⟩ : ValidationStepOutput)].length
          ∧ r.log.val_loss
              = ([(⟨0, 0, 1, 1, 2⟩ : ValidationStepOutput)].map
                  fun o => o.val_intent_loss + o.val_entity_loss).sum
                / [(⟨0, 0, 1, 1, 2⟩ : ValidationStepOutput)].length :=
  spec_C4 tinyModule [(tinyBatch, 0)] [⟨0, 0, 1, 1, 2⟩]
    (by norm_num [optionMapM, DualIntentEntityTransformer.validation_step,
      EmbeddingTransformer.forward, EmbeddingTransformer.encoded, tinyModule, tinyModel,
      tinyBatch, transpose10, transpose12, inplaceAdd, addMat, addVec, LinearLayer.apply,
      listDot, crossEntropy2, crossEntropy3, squeezeDim1, tensorLong, List.range_succ])
    (by decide)

theorem crossEntropy3_transpose (nll : List ℚ → ℤ → ℚ) (ep : List (List (List ℚ)))
    (tgt : List (List ℤ)) (C : ℕ)
    (hlen : ep.length = tgt.length)
    (hz1 : ∀ p ∈ ep.zip tgt, p.1.length = p.2.length)
    (hz2 : ∀ p ∈ ep.zip tgt, ∀ r ∈ p.1, r.length = C) :
    crossEntropy3 nll (transpose12 ep) tgt
      = some ((((ep.zip tgt).map fun p => List.zipWith nll p.1 p.2).flatten).sum
              / (((ep.zip tgt).map fun p => List.zipWith nll p.1 p.2).flatten).length) := by
  have hzipeq : (transpose12 ep).zip tgt
      = (ep.zip tgt).map (Prod.map (transpose10 (0 : ℚ)) id) := by
    unfold transpose12
    exact List.zip_map_left _ _ _
  have hguard : (transpose12 ep).length = tgt.length
      ∧ ∀ p ∈ (transpose12 ep).zip tgt, ∀ r ∈ p.1, r.length = p.2.length := by
    constructor
    · unfold transpose12
      rw [List.length_map]
      exact hlen
    · intro p hp r hr
      rw [hzipeq] at hp
      rcases List.mem_map.1 hp with ⟨q, hq, hpq⟩
      obtain ⟨q1, q2⟩ := q
      rw [← hpq] at hr ⊢
      have hr2 : r ∈ transpose10 (0 : ℚ) q1 := hr
      have := transpose10_row_length r hr2
      simpa [this] using hz1 (q1, q2) hq
  have hterms : ((transpose12 ep).zip tgt).map
        (fun p => (List.range p.2.length).map fun l =>
          nll (p.1.map fun r => r.getD l 0) (p.2.getD l 0))
      = (ep.zip tgt).map fun p => List.zipWith nll p.1 p.2 := by
    rw [hzipeq, List.map_map]
    refine List.map_congr_left fun p hp => ?_
    obtain ⟨p1, p2⟩ := p
    have h1 : p1.length = p2.length := hz1 (p1, p2) hp
    have h2 : ∀ r ∈ p1, r.length = C := hz2 (p1, p2) hp
    show (List.range p2.length).map
        (fun l => nll ((transpose10 (0 : ℚ) p1).map fun r => r.getD l 0) (p2.getD l 0))
      = List.zipWith nll p1 p2
    rw [zipWith_eq_map_range nll [] 0 p1 p2 h1]
    refine List.map_congr_left fun l hl => ?_
    have hl2 : l < p1.length := by
      rw [h1]
      exact List.mem_range.1 hl
    rw [transpose10_col (0 : ℚ) h2 hl2]
  unfold crossEntropy3
  rw [if_pos hguard]
  simp only [hterms]

/-- Claim C5: a training step under optimizer index 0 returns as `loss`
(and `intent_loss`) the cross-entropy of the intent logits against the
batch-squeezed intent labels, and under index 1 returns as `loss` (and
`entity_loss`) the cross-entropy of the entity logits, transposed so the
class dimension is second, against the integral entity labels — the
unweighted mean over every example and every token position, with no
ignore-index masking; each call handles one batch under exactly one
role (the other role's key is absent). -/
theorem spec_C5 (self : DualIntentEntityTransformer) (batch : TorchBatch)
    (batch_idx : ℕ) (ip : List (List ℚ)) (ep : List (List (List ℚ))) (C : ℕ)
    (hf : self.model.forward batch.tokens = some (ip, ep))
    (hN : ip.length = batch.intent_idx.length)
    (hNe : ep.length = batch.entity_idx.length)
    (hz1 : ∀ p ∈ ep.zip batch.entity_idx, p.1.length = p.2.length)
    (hz2 : ∀ p ∈ ep.zip batch.entity_idx, ∀ r ∈ p.1, r.length = C) :
    self.training_step batch batch_idx 0
        = some (some
            ⟨(List.zipWith self.nll ip (squeezeDim1 batch.intent_idx)).sum
                / (List.zipWith self.nll ip (squeezeDim1 batch.intent_idx)).length,
              some ((List.zipWith self.nll ip (squeezeDim1 batch.intent_idx)).sum
                / (List.zipWith self.nll ip (squeezeDim1 batch.intent_idx)).length),
              none⟩)
      ∧ self.training_step batch batch_idx 1
          = some (some
              ⟨(((ep.zip batch.entity_idx).map
                    fun p => List.zipWith self.nll p.1 p.2).flatten).sum
                  / (((ep.zip batch.entity_idx).map
                    fun p => List.zipWith self.nll p.1 p.2).flatten).length,
                none,
                some ((((ep.zip batch.entity_idx).map
                    fun p => List.zipWith self.nll p.1 p.2).flatten).sum
                  / (((ep.zip batch.entity_idx).map
                    fun p => List.zipWith self.nll p.1 p.2).flatten).length)⟩) := by
  have hce2 : crossEntropy2 self.nll ip (squeezeDim1 batch.intent_idx)
      = some ((List.zipWith self.nll ip (squeezeDim1 batch.intent_idx)).sum
          / (List.zipWith self.nll ip (squeezeDim1 batch.intent_idx)).length) := by
    unfold crossEntropy2
    rw [if_pos]
    unfold squeezeDim1
    rw [List.length_map]
    exact hN
  have hce3 := crossEntropy3_transpose self.nll ep batch.entity_idx C hNe hz1 hz2
  constructor
  · unfold DualIntentEntityTransformer.training_step
    rw [hf]
    simp [hce2]
  · unfold DualIntentEntityTransformer.training_step
    rw [hf]
    simp [tensorLong, hce3]

/-- Witness for C5 on the concrete module and one-example batch. -/
theorem spec_C5_witness :
    tinyModule.training_step tinyBatch 0 0
        = some (some
            ⟨(List.zipWith tinyModule.nll [[(0 : ℚ)]] (squeezeDim1 tinyBatch.intent_idx)).sum
                / (List.zipWith tinyModule.nll [[(0 : ℚ)]]
                    (squeezeDim1 tinyBatch.intent_idx)).length,
              some ((List.zipWith tinyModule.nll [[(0 : ℚ)]]
                    (squeezeDim1 tinyBatch.intent_idx)).sum
                / (List.zipWith tinyModule.nll [[(0 : ℚ)]]
                    (squeezeDim1 tinyBatch.intent_idx)).length),
              none⟩)
      ∧ tinyModule.training_step tinyBatch 0 1
          = some (some
              ⟨((([[[(0 : ℚ)]]].zip tinyBatch.entity_idx).map
                    fun p => List.zipWith tinyModule.nll p.1 p.2).flatten).sum
                  / ((([[[(0 : ℚ)]]].zip tinyBatch.entity_idx).map
                    fun p => List.zipWith tinyModule.nll p.1 p.2).flatten).length,
                none,
                some (((([[[(0 : ℚ)]]].zip tinyBatch.entity_idx).map
                    fun p => List.zipWith tinyModule.nll p.1 p.2).flatten).sum
                  / ((([[[(0 : ℚ)]]].zip tinyBatch.entity_idx).map
                    fun p => List.zipWith tinyModule.nll p.1 p.2).flatten).length)⟩) :=
  spec_C5 tinyModule tinyBatch 0 [[(0 : ℚ)]] [[[(0 : ℚ)]]] 1
    (by norm_num [EmbeddingTransformer.forward, EmbeddingTransformer.encoded, tinyModule,
      tinyModel, tinyBatch, optionMapM, transpose10, inplaceAdd, addMat, addVec,
      LinearLayer.apply, listDot, List.range_succ])
    (by decide) (by decide) (by decide) (by decide)

/-- Claim C10: a training step whose optimizer index is neither 0 nor 1
still computes the forward pass, then falls through both role branches
and returns Python `None` — no loss dictionary, no error, no default
role. -/
theorem spec_C10 (self : DualIntentEntityTransformer) (batch : TorchBatch)
    (batch_idx optimizer_idx : ℕ) (pr : List (List ℚ) × List (List (List ℚ)))
    (hf : self.model.forward batch.tokens = some pr)
    (h0 : optimizer_idx ≠ 0) (h1 : optimizer_idx ≠ 1) :
    self.training_step batch batch_idx optimizer_idx = some none := by
  obtain ⟨ip, ep⟩ := pr
  unfold DualIntentEntityTransformer.training_step
  rw [hf]
  simp [h0, h1]

/-- Witness for C10 at optimizer index 2. -/
theorem spec_C10_witness : tinyModule.training_step tinyBatch 0 2 = some none :=
  spec_C10 tinyModule tinyBatch 0 2 ([[(0 : ℚ)]], [[[(0 : ℚ)]]])
    (by norm_num [EmbeddingTransformer.forward, EmbeddingTransformer.encoded, tinyModule,
      tinyModel, tinyBatch, optionMapM, transpose10, inplaceAdd, addMat, addVec,
      LinearLayer.apply, listDot, List.range_succ])
    (by decide) (by decide)

/-- Witness for C7 with the resolvable configured name. -/
theorem spec_C7_witness :
    ∃ o1 o2 : TorchOptimizer,
      tinyModule.configure_optimizers ["Adam"] = some ([o1, o2], [⟨o1, 1⟩, ⟨o2, 1⟩])
        ∧ o1.family = tinyModule.optimizer ∧ o2.family = tinyModule.optimizer
        ∧ o1.lr = tinyModule.lr ∧ o2.lr = tinyModule.lr
        ∧ o1.paramsRef = tinyModule.paramsId ∧ o2.paramsRef = tinyModule.paramsId
        ∧ o1.paramsRef = o2.paramsRef :=
  spec_C7 tinyModule ["Adam"] (by simp [tinyModule])

/-- The concrete module with a misspelled optimizer-family name. -/
def tinyModuleBadOpt : DualIntentEntityTransformer where
  model := tinyModel
  nll := fun _ _ => 1
  get_accuracy2 := fun _ _ => 0
  get_accuracy3 := fun _ _ => 0
  optimizer := "Adamm"
  lr := 1/1000
  paramsId := 0

/-- Witness for C8 with a misspelled optimizer-family name. -/
theorem spec_C8_witness :
    tinyModuleBadOpt.configure_optimizers ["Adam", "SGD"] = none
      ∧ trainer_fit tinyModuleBadOpt ["Adam", "SGD"] [] = Except.error "ConfigurationError" :=
  spec_C8 tinyModuleBadOpt ["Adam", "SGD"] [] (by simp [tinyModuleBadOpt])

theorem transpose10_shape3 {t : List (List (List α))} {a b c : ℕ}
    (h : shape3 t a b c) (ha : 0 < a) : shape3 (transpose10 [] t) b a c := by
  obtain ⟨hlen, hrows⟩ := h
  have h2 : shape2 t a b := ⟨hlen, fun r hr => (hrows r hr).1⟩
  obtain ⟨hlen2, hrows2⟩ := transpose10_shape2 ([] : List α) h2 ha
  refine ⟨hlen2, fun r hr => ⟨hrows2 r hr, ?_⟩⟩
  intro v hv
  cases t with
  | nil => simp [transpose10] at hr
  | cons hd tl =>
    simp only [transpose10, List.mem_map] at hr
    rcases hr with ⟨j, hj, hjr⟩
    rw [← hjr] at hv
    rcases List.mem_map.1 hv with ⟨row, hrow, hrv⟩
    have hjlt : j < row.length := by
      rw [(hrows row hrow).1]
      have hhd : hd.length = b := (hrows hd (List.mem_cons_self hd tl)).1
      rw [← hhd]
      exact List.mem_range.1 hj
    have hvmem : row.getD j [] ∈ row := by
      rw [List.getD_eq_getElem?_getD, List.getElem?_eq_getElem hjlt]
      exact List.getElem_mem hjlt
    rw [← hrv]
    exact (hrows row hrow).2 _ hvmem

theorem LinearLayer.apply_of_len {lin : LinearLayer} {v : List ℚ}
    (h : v.length = lin.in_features) :
    lin.apply v = some (List.zipWith (fun w c => listDot w v + c) lin.weight lin.bias) := by
  unfold LinearLayer.apply
  rw [if_pos h]

/-- Claim C6: in every successful forward pass, the intent head is the
single linear projection `intent_feature` applied only to the encoder
representation at sequence position 0, and the entity head is the single
linear projection `entity_feature` applied independently to the
representation at every position, with the entity output transposed back
to batch-major `[N, L, C]` (entry `[n][l]` comes from representation
position `l` of example `n`). -/
theorem spec_C6 (m : EmbeddingTransformer) (x : List (List ℕ))
    (feat : List (List (List ℚ))) (Lf Nf : ℕ)
    (henc : m.encoded x = some feat)
    (hfeat : shape3 feat Lf Nf m.d_model)
    (hL : 0 < Lf)
    (hIin : m.intent_feature.in_features = m.d_model)
    (hEin : m.entity_feature.in_features = m.d_model) :
    ∃ ip ep,
      m.forward x = some (ip, ep)
        ∧ ip.length = Nf
        ∧ (∀ n, n < Nf →
            m.intent_feature.apply ((feat.getD 0 []).getD n []) = some (ip.getD n []))
        ∧ ep.length = Nf
        ∧ (∀ r ∈ ep, r.length = Lf)
        ∧ (∀ n l, n < Nf → l < Lf →
            m.entity_feature.apply ((feat.getD l []).getD n [])
              = some ((ep.getD n []).getD l [])) := by
  obtain ⟨hflen, hfrows⟩ := hfeat
  have h0lt : 0 < feat.length := by rw [hflen]; exact hL
  have hrow0 : feat[0]? = some (feat.getD 0 []) := by
    rw [List.getElem?_eq_getElem h0lt, List.getD_eq_getElem?_getD,
      List.getElem?_eq_getElem h0lt]
    rfl
  have hrow0mem : feat.getD 0 [] ∈ feat := by
    rw [List.getD_eq_getElem?_getD, List.getElem?_eq_getElem h0lt]
    exact List.getElem_mem h0lt
  have hrow0len : (feat.getD 0 []).length = Nf := (hfrows _ hrow0mem).1
  have hIapp : ∀ v ∈ feat.getD 0 [], ∃ out, m.intent_feature.apply v = some out ∧ True :=
    fun v hv =>
      ⟨_, LinearLayer.apply_of_len (by rw [hIin]; exact (hfrows _ hrow0mem).2 v hv), trivial⟩
  obtain ⟨ipOut, hipOut, hiplen, -⟩ := optionMapM_shape _ hIapp
  have hEapp : ∀ r ∈ feat,
      ∃ out, optionMapM m.entity_feature.apply r = some out ∧ out.length = Nf := by
    intro r hr
    obtain ⟨hrlen, hrin⟩ := hfrows r hr
    obtain ⟨out, ho, holen, -⟩ := optionMapM_shape (fun _ => True)
      (fun v hv => ⟨_, LinearLayer.apply_of_len (by rw [hEin]; exact hrin v hv), trivial⟩)
    exact ⟨out, ho, by rw [holen, hrlen]⟩
  obtain ⟨eOut, heOut, heOutLen, heOutRows⟩ := optionMapM_shape _ hEapp
  have heOutShape : shape2 eOut Lf Nf := ⟨by rw [heOutLen, hflen], heOutRows⟩
  have hfwd : m.forward x = some (ipOut, transpose10 ([] : List ℚ) eOut) := by
    simp only [EmbeddingTransformer.forward, henc, hrow0, hipOut, heOut]
  refine ⟨ipOut, transpose10 ([] : List ℚ) eOut, hfwd, by rw [hiplen, hrow0len],
    ?_, transpose10_length heOutShape hL, ?_, ?_⟩
  · intro n hn
    exact optionMapM_getD ([] : List ℚ) ([] : List ℚ) hipOut n (by rw [hrow0len]; exact hn)
  · intro r hr
    rw [transpose10_row_length r hr, heOutLen, hflen]
  · intro n l hn hl
    have hTgetD := transpose10_getD ([] : List ℚ) heOutShape l n hl hn
    rw [hTgetD]
    have houter := optionMapM_getD ([] : List (List ℚ)) ([] : List (List ℚ)) heOut l
      (by rw [hflen]; exact hl)
    have hlmem : feat.getD l [] ∈ feat := by
      have hllt : l < feat.length := by rw [hflen]; exact hl
      rw [List.getD_eq_getElem?_getD, List.getElem?_eq_getElem hllt]
      exact List.getElem_mem hllt
    exact optionMapM_getD ([] : List ℚ) ([] : List ℚ) houter n
      (by rw [(hfrows _ hlmem).1]; exact hn)

/-- Witness for C6 on the concrete model. -/
theorem spec_C6_witness :
    ∃ ip ep,
      tinyModel.forward [[0]] = some (ip, ep)
        ∧ ip.length = 1
        ∧ (∀ n, n < 1 →
            tinyModel.intent_feature.apply (([[[(0 : ℚ)]]].getD 0 []).getD n [])
              = some (ip.getD n []))
        ∧ ep.length = 1
        ∧ (∀ r ∈ ep, r.length = 1)
        ∧ (∀ n l, n < 1 → l < 1 →
            tinyModel.entity_feature.apply (([[[(0 : ℚ)]]].getD l []).getD n [])
              = some ((ep.getD n []).getD l [])) :=
  spec_C6 tinyModel [[0]] [[[(0 : ℚ)]]] 1 1
    (by norm_num [EmbeddingTransformer.encoded, tinyModel, optionMapM, transpose10,
      inplaceAdd, addMat, addVec, List.range_succ])
    (by decide) (by decide) (by decide) (by decide)

theorem addVec_shape {u v : List ℚ} {d : ℕ} (hu : u.length = d) (hv : v.length = d) :
    ∃ w, addVec u v = some w ∧ w.length = d := by
  unfold addVec
  rw [if_pos (by rw [hu, hv])]
  exact ⟨_, rfl, by rw [List.length_zipWith, hu, hv, Nat.min_self]⟩

theorem addMat_shape {p q : List (List ℚ)} {L d : ℕ}
    (hp : shape2 p L d) (hq : shape2 q L d) :
    ∃ c2, addMat p q = some c2 ∧ shape2 c2 L d := by
  unfold addMat
  rw [if_pos (by rw [hp.1, hq.1])]
  obtain ⟨ys, hys, hlen, hP⟩ := optionMapM_shape (fun (v : List ℚ) => v.length = d)
    (fun pr hpr => by
      obtain ⟨h1, h2⟩ := List.of_mem_zip hpr
      obtain ⟨w, hw, hwlen⟩ := addVec_shape (hp.2 _ h1) (hq.2 _ h2)
      exact ⟨w, hw, hwlen⟩)
  refine ⟨ys, hys, ?_, hP⟩
  rw [hlen, List.length_zip, hp.1, hq.1, Nat.min_self]

theorem inplaceAdd_shape {a b : List (List (List ℚ))} {N L d : ℕ}
    (ha : shape3 a N L d) (hb : shape3 b N L d) :
    ∃ c2, inplaceAdd a b = some c2 ∧ shape3 c2 N L d := by
  unfold inplaceAdd
  rw [if_pos (by rw [ha.1, hb.1])]
  obtain ⟨ys, hys, hlen, hP⟩ := optionMapM_shape
    (fun (c : List (List ℚ)) => c.length = L ∧ ∀ v ∈ c, v.length = d)
    (fun pr hpr => by
      obtain ⟨h1, h2⟩ := List.of_mem_zip hpr
      obtain ⟨c2, hc2, hc2s⟩ := addMat_shape ⟨(ha.2 _ h1).1, (ha.2 _ h1).2⟩
        ⟨(hb.2 _ h2).1, (hb.2 _ h2).2⟩
      exact ⟨c2, hc2, hc2s.1, hc2s.2⟩)
  refine ⟨ys, hys, ?_, hP⟩
  rw [hlen, List.length_zip, ha.1, hb.1, Nat.min_self]

theorem encoded_shape (m : EmbeddingTransformer) (x : List (List ℕ)) (N L : ℕ)
    (hN : 0 < N) (hseq : m.seq_len = L)
    (hx : shape2 x N L)
    (htok : ∀ row ∈ x, ∀ t ∈ row, t < m.vocab_size)
    (hembW : shape2 m.embedding m.vocab_size m.d_model)
    (hposW : shape2 m.position_embedding m.seq_len m.d_model)
    (hEnc : ∀ t a b, shape3 t a b m.d_model → shape3 (m.encoder t) a b m.d_model) :
    ∃ feat, m.encoded x = some feat ∧ shape3 feat L N m.d_model := by
  have hembEx : ∀ row ∈ x, ∃ er, optionMapM (fun t => m.embedding[t]?) row = some er
      ∧ er.length = L ∧ ∀ v ∈ er, v.length = m.d_model := by
    intro row hrow
    obtain ⟨er, her, herlen, herP⟩ := optionMapM_shape (fun (v : List ℚ) => v.length = m.d_model)
      (fun t ht => by
        have htlt : t < m.embedding.length := by
          rw [hembW.1]
          exact htok row hrow t ht
        exact ⟨_, List.getElem?_eq_getElem htlt, hembW.2 _ (List.getElem_mem htlt)⟩)
    exact ⟨er, her, by rw [herlen, hx.2 row hrow], herP⟩
  obtain ⟨emb, hemb, hembLen, hembP⟩ := optionMapM_shape _ hembEx
  have hembShape : shape3 emb N L m.d_model := ⟨by rw [hembLen, hx.1], hembP⟩
  have hposEx : ∀ i ∈ List.range m.seq_len, ∃ v, m.position_embedding[i]? = some v
      ∧ v.length = m.d_model := by
    intro i hi
    have hilt : i < m.position_embedding.length := by
      rw [hposW.1]
      exact List.mem_range.1 hi
    exact ⟨_, List.getElem?_eq_getElem hilt, hposW.2 _ (List.getElem_mem hilt)⟩
  obtain ⟨posRow, hposRow, hposLen, hposP⟩ := optionMapM_shape _ hposEx
  have hposMatShape : shape3 (x.map fun _ => posRow) N L m.d_model := by
    refine ⟨by rw [List.length_map, hx.1], ?_⟩
    intro r hr
    rcases List.mem_map.1 hr with ⟨row, hrow, hreq⟩
    rw [← hreq]
    exact ⟨by rw [hposLen, List.length_range, hseq], hposP⟩
  obtain ⟨emb2, hemb2, hemb2Shape⟩ := inplaceAdd_shape hembShape hposMatShape
  have htr : shape3 (transpose10 ([] : List ℚ) emb2) L N m.d_model :=
    transpose10_shape3 hemb2Shape hN
  refine ⟨m.encoder (transpose10 ([] : List ℚ) emb2), ?_, hEnc _ _ _ htr⟩
  simp only [EmbeddingTransformer.encoded, hemb, hposRow, hemb2]

/-- Claim C2: for every batch of `N ≥ 1` token sequences of length
`L ≥ 1` fed to a model configured with that sequence length and any class
counts `≥ 1`, the forward pass succeeds with intent logits of shape
`[N, intent_class_num]` and entity logits of shape
`[N, L, entity_class_num]`. -/
theorem spec_C2 (m : EmbeddingTransformer) (x : List (List ℕ)) (N L : ℕ)
    (hN : 1 ≤ N) (hL : 1 ≤ L)
    (hCi : 1 ≤ m.intent_class_num) (hCe : 1 ≤ m.entity_class_num)
    (hseq : m.seq_len = L) (hx : shape2 x N L)
    (htok : ∀ row ∈ x, ∀ t ∈ row, t < m.vocab_size)
    (hembW : shape2 m.embedding m.vocab_size m.d_model)
    (hposW : shape2 m.position_embedding m.seq_len m.d_model)
    (hIin : m.intent_feature.in_features = m.d_model)
    (hIw : m.intent_feature.weight.length = m.intent_class_num)
    (hIb : m.intent_feature.bias.length = m.intent_class_num)
    (hEin : m.entity_feature.in_features = m.d_model)
    (hEw : m.entity_feature.weight.length = m.entity_class_num)
    (hEb : m.entity_feature.bias.length = m.entity_class_num)
    (hEnc : ∀ t a b, shape3 t a b m.d_model → shape3 (m.encoder t) a b m.d_model) :
    ∃ ip ep, m.forward x = some (ip, ep)
      ∧ shape2 ip N m.intent_class_num
      ∧ shape3 ep N L m.entity_class_num := by
  obtain ⟨feat, henc, hfeat⟩ := encoded_shape m x N L hN hseq hx htok hembW hposW hEnc
  obtain ⟨hflen, hfrows⟩ := hfeat
  have h0lt : 0 < feat.length := by rw [hflen]; exact hL
  have hrow0 : feat[0]? = some (feat.getD 0 []) := by
    rw [List.getElem?_eq_getElem h0lt, List.getD_eq_getElem?_getD,
      List.getElem?_eq_getElem h0lt]
    rfl
  have hrow0mem : feat.getD 0 [] ∈ feat := by
    rw [List.getD_eq_getElem?_getD, List.getElem?_eq_getElem h0lt]
    exact List.getElem_mem h0lt
  have hrow0len : (feat.getD 0 []).length = N := (hfrows _ hrow0mem).1
  have hIapp : ∀ v ∈ feat.getD 0 [],
      ∃ out, m.intent_feature.apply v = some out ∧ out.length = m.intent_class_num :=
    fun v hv =>
      ⟨_, LinearLayer.apply_of_len (by rw [hIin]; exact (hfrows _ hrow0mem).2 v hv),
        by rw [List.length_zipWith, hIw, hIb, Nat.min_self]⟩
  obtain ⟨ipOut, hipOut, hiplen, hipP⟩ := optionMapM_shape _ hIapp
  have hEapp : ∀ r ∈ feat,
      ∃ out, optionMapM m.entity_feature.apply r = some out
        ∧ out.length = N ∧ ∀ w ∈ out, w.length = m.entity_class_num := by
    intro r hr
    obtain ⟨hrlen, hrin⟩ := hfrows r hr
    have hEinner : ∀ v ∈ r, ∃ w, m.entity_feature.apply v = some w
        ∧ w.length = m.entity_class_num :=
      fun v hv =>
        ⟨_, LinearLayer.apply_of_len (by rw [hEin]; exact hrin v hv),
          by rw [List.length_zipWith, hEw, hEb, Nat.min_self]⟩
    obtain ⟨out, ho, holen, hoP⟩ := optionMapM_shape _ hEinner
    exact ⟨out, ho, by rw [holen, hrlen], hoP⟩
  obtain ⟨eOut, heOut, heOutLen, heOutRows⟩ := optionMapM_shape _ hEapp
  have heOutShape : shape3 eOut L N m.entity_class_num := ⟨by rw [heOutLen, hflen], heOutRows⟩
  have hfwd : m.forward x = some (ipOut, transpose10 ([] : List ℚ) eOut) := by
    simp only [EmbeddingTransformer.forward, henc, hrow0, hipOut, heOut]
  exact ⟨ipOut, transpose10 ([] : List ℚ) eOut, hfwd,
    ⟨by rw [hiplen, hrow0len], hipP⟩, transpose10_shape3 heOutShape hL⟩

/-- The spec's end-to-end scenario model: `vocab_size=50`, `seq_len=10`,
`intent_class_num=3`, `entity_class_num=5` (with `d_model` shrunk to 1
and an identity encoder standing in for the attention stack). -/
def scenarioModel : EmbeddingTransformer where
  vocab_size := 50
  seq_len := 10
  intent_class_num := 3
  entity_class_num := 5
  d_model := 1
  embedding := List.replicate 50 [0]
  position_embedding := List.replicate 10 [0]
  encoder := fun t => t
  intent_feature := ⟨1, List.replicate 3 [1], List.replicate 3 0⟩
  entity_feature := ⟨1, List.replicate 5 [1], List.replicate 5 0⟩

/-- A batch of 4 token sequences of length 10 for the scenario model. -/
def scenarioTokens : List (List ℕ) := List.replicate 4 (List.replicate 10 7)

/-- Witness for C2 at the spec's end-to-end scenario: batch size 4,
sequence length 10 — intent logits `(4, 3)`, entity logits `(4, 10, 5)`. -/
theorem spec_C2_witness :
    ∃ ip ep, scenarioModel.forward scenarioTokens = some (ip, ep)
      ∧ shape2 ip 4 scenarioModel.intent_class_num
      ∧ shape3 ep 4 10 scenarioModel.entity_class_num :=
  spec_C2 scenarioModel scenarioTokens 4 10 (by decide) (by decide) (by decide) (by decide)
    (by decide) (by decide) (by decide) (by decide) (by decide) (by decide) (by decide)
    (by decide) (by decide) (by decide) (by decide) (fun t a b h => h)
